import Mathlib

/-!
Shallow embedding of the offline-sync subsystem of the TaskManagement
repository: the task data model (`src/types/index.ts`), the task operations
facade (`src/services/tasks.ts` — `taskService`), the sync coordinator
(`src/services/sync.ts` — `syncService`), and the read-side / in-memory
wrappers of the zustand store (`src/store/taskStore.ts` — `useTaskStore`).

Modelling conventions:
- Durable storage (AsyncStorage blobs) is modelled as an explicit
  `LocalState` record holding the persisted task snapshot and the persisted
  offline-action log; every service operation is a pure state transformer on
  `LocalState`.  Storage reads/writes themselves are assumed reliable (their
  failure branches are out of scope for the claims).
- Timestamps (`new Date().toISOString()`) and generated identifiers
  (`Date.now().toString()`) are nondeterministic inputs of the code; they are
  passed in as explicit parameters (`now`, `freshId`, `actionId`).
- Connectivity (`syncService.checkConnectivity`) and the success of the
  mock backend push (`syncService.syncTasks`) are likewise environment
  inputs, passed as the booleans `online` and `syncOk`.  In the source each
  mutation queues an offline action exactly when the connectivity probe says
  offline, or when the probe says online but the subsequent `syncTasks` call
  throws; that is the `online && syncOk` condition below.
- JavaScript thrown errors are modelled with `Except String`; each operation
  returns the (possibly error) result together with the state as it stands
  when the operation returns, so "throws before any write" is visible as the
  state coming back unchanged.
-/

namespace TaskApp

/-- TaskStatus from `src/types/index.ts`:
`'not_started' | 'in_progress' | 'completed'`. -/
inductive TaskStatus : Type
  | not_started
  | in_progress
  | completed
deriving DecidableEq

/-- Task record from `src/types/index.ts`.  `dueDate?: string` becomes
`Option String`; all other timestamp/id fields are strings as in the source. -/
structure Task : Type where
  id : String
  title : String
  description : String
  completed : Bool
  status : TaskStatus
  assignedDate : String
  dueDate : Option String
  createdAt : String
  updatedAt : String
  userId : String
deriving DecidableEq

/-- OfflineAction from `src/types/index.ts`: `type` is `'CREATE' | 'UPDATE' |
'DELETE'` and `payload` is `Task | { id: string }`.  The three call sites that
construct actions (`taskService.createTask` / `updateTask` / `deleteTask`)
always pair CREATE and UPDATE with a full `Task` payload and DELETE with an
id-only payload, so the embedding bakes the payload shape into the
constructor, exactly as the spec's payload-shape invariant states. -/
inductive OfflineAction : Type
  | create (id : String) (payload : Task) (timestamp : String)
  | update (id : String) (payload : Task) (timestamp : String)
  | delete (id : String) (payloadId : String) (timestamp : String)
deriving DecidableEq

/-- The durable on-device state: the `@tasks` blob (full task snapshot kept by
`storage.getTasks` / `storage.saveTasks`) and the `@offline_actions` blob
(action log kept by `syncService.getOfflineActions` / `saveOfflineAction` /
`clearOfflineActions`). -/
structure LocalState : Type where
  tasks : List Task
  actions : List OfflineAction
deriving DecidableEq

/-- Partial<Task> from `taskService.updateTask(taskId, updates)`: every Task
field may be present (overriding) or absent.  `dueDate` is doubly optional:
present-with-value, present-as-undefined, or absent collapse to
`Option (Option String)`. -/
structure TaskUpdates : Type where
  id : Option String := none
  title : Option String := none
  description : Option String := none
  completed : Option Bool := none
  status : Option TaskStatus := none
  assignedDate : Option String := none
  dueDate : Option (Option String) := none
  createdAt : Option String := none
  updatedAt : Option String := none
  userId : Option String := none
deriving DecidableEq

/-- The spread `{ ...task, ...updates }` in `taskService.updateTask`: fields
present in `updates` override those of `task`. -/
def applyUpdates (t : Task) (u : TaskUpdates) : Task where
  id := u.id.getD t.id
  title := u.title.getD t.title
  description := u.description.getD t.description
  completed := u.completed.getD t.completed
  status := u.status.getD t.status
  assignedDate := u.assignedDate.getD t.assignedDate
  dueDate := u.dueDate.getD t.dueDate
  createdAt := u.createdAt.getD t.createdAt
  updatedAt := u.updatedAt.getD t.updatedAt
  userId := u.userId.getD t.userId

/-- The full update expression of `taskService.updateTask`:
`{ ...tasks[index], ...updates, updatedAt: new Date().toISOString() }`. -/
def mergeUpdates (t : Task) (u : TaskUpdates) (now : String) : Task :=
  { applyUpdates t u with updatedAt := now }

/-- The task produced by a successful `taskService.toggleTaskComplete` on `t`:
`completed` flipped, `status` set to the matching end of the
not_started/completed pair, `updatedAt` refreshed. -/
def toggledTask (t : Task) (now : String) : Task :=
  { t with
    completed := !t.completed
    status := if t.completed then TaskStatus.not_started else TaskStatus.completed
    updatedAt := now }

/-- The `findIndex` / `tasks[index] = x` idiom of `taskService.updateTask` and
of the UPDATE branch of `syncService.processOfflineActions`: replace the FIRST
task whose id matches, returning the new element and the new list, or `none`
when no task matches (`findIndex` returns `-1`). -/
def updateFirstTask (taskId : String) (upd : Task → Task) :
    List Task → Option (Task × List Task)
  | [] => none
  | t :: ts =>
    if t.id == taskId then
      some (upd t, upd t :: ts)
    else
      match updateFirstTask taskId upd ts with
      | none => none
      | some (u, ts2) => some (u, t :: ts2)

/-- taskService.createTask (src/services/tasks.ts lines 44-98).  Builds the
new task (`completed: false`, `status: 'not_started'`, `assignedDate`,
`createdAt`, `updatedAt` all the same `now`), pushes it onto the stored
snapshot, and queues a CREATE offline action unless the connectivity probe
says online and the `syncTasks` push succeeds. -/
def taskService.createTask (st : LocalState)
    (title description userId : String) (dueDate : Option String)
    (now freshId actionId : String) (online syncOk : Bool) :
    Task × LocalState :=
  let newTask : Task :=
    { id := freshId
      title := title
      description := description
      completed := false
      status := TaskStatus.not_started
      assignedDate := now
      dueDate := dueDate
      createdAt := now
      updatedAt := now
      userId := userId }
  let tasks := st.tasks ++ [newTask]
  let actions :=
    if online && syncOk then st.actions
    else st.actions ++ [OfflineAction.create actionId newTask now]
  (newTask, ⟨tasks, actions⟩)

/-- taskService.updateTask (src/services/tasks.ts lines 100-147).  Throws
`'Task not found'` when `findIndex` misses (before any write, so the state
comes back untouched); otherwise merges the updates over the stored task,
stamps `updatedAt`, writes the snapshot back, and queues an UPDATE offline
action carrying the full updated task unless online and the push succeeds. -/
def taskService.updateTask (st : LocalState) (taskId : String)
    (updates : TaskUpdates) (now actionId : String) (online syncOk : Bool) :
    Except String Task × LocalState :=
  match updateFirstTask taskId (fun old => mergeUpdates old updates now) st.tasks with
  | none => (Except.error "Task not found", st)
  | some (updatedTask, tasks) =>
    let actions :=
      if online && syncOk then st.actions
      else st.actions ++ [OfflineAction.update actionId updatedTask now]
    (Except.ok updatedTask, ⟨tasks, actions⟩)

/-- taskService.deleteTask (src/services/tasks.ts lines 149-187).  Filters out
every task with the target id, throws `'Task not found'` when nothing was
removed (lengths equal — again before any write), otherwise persists the
filtered snapshot and queues a DELETE offline action carrying only the id
unless online and the push succeeds. -/
def taskService.deleteTask (st : LocalState) (taskId : String)
    (now actionId : String) (online syncOk : Bool) :
    Except String Unit × LocalState :=
  let filteredTasks := st.tasks.filter (fun t => t.id != taskId)
  if st.tasks.length == filteredTasks.length then
    (Except.error "Task not found", st)
  else
    let actions :=
      if online && syncOk then st.actions
      else st.actions ++ [OfflineAction.delete actionId taskId now]
    (Except.ok (), ⟨filteredTasks, actions⟩)

/-- taskService.toggleTaskComplete (src/services/tasks.ts lines 189-200).
`getTaskById` is `find?` on the stored snapshot; on a miss the operation
throws `'Task not found'`; otherwise it delegates to `updateTask` with
`completed` flipped and `status` set to `'completed'` or `'not_started'`. -/
def taskService.toggleTaskComplete (st : LocalState) (taskId : String)
    (now actionId : String) (online syncOk : Bool) :
    Except String Task × LocalState :=
  match st.tasks.find? (fun t => t.id == taskId) with
  | none => (Except.error "Task not found", st)
  | some task =>
    let newStatus : TaskStatus :=
      if task.completed then TaskStatus.not_started else TaskStatus.completed
    taskService.updateTask st taskId
      { completed := some (!task.completed), status := some newStatus }
      now actionId online syncOk

/-- taskService.updateTaskStatus (src/services/tasks.ts lines 202-207):
delegates to `updateTask` with the given status and
`completed: status === 'completed'`. -/
def taskService.updateTaskStatus (st : LocalState) (taskId : String)
    (status : TaskStatus) (now actionId : String) (online syncOk : Bool) :
    Except String Task × LocalState :=
  taskService.updateTask st taskId
    { status := some status, completed := some (status == TaskStatus.completed) }
    now actionId online syncOk

/-- syncService.clearOfflineActions (src/services/sync.ts lines 240-246):
removes the `@offline_actions` blob. -/
def syncService.clearOfflineActions (st : LocalState) : LocalState :=
  { st with actions := [] }

/-- One iteration of the `for (const action of actions)` loop in
`syncService.processOfflineActions` (src/services/sync.ts lines 291-313).
CREATE pushes the payload task with no duplicate-id check (the `'id' in
payload` guard is satisfied by both payload shapes, hence always by a CREATE
action); UPDATE replaces the first task whose id matches the payload's id and
silently drops the action on a miss (`findIndex === -1`); DELETE filters out
every task with the payload id, a silent no-op when none matches. -/
def syncService.applyOfflineAction (updatedTasks : List Task)
    (action : OfflineAction) : List Task :=
  match action with
  | OfflineAction.create _ payload _ => updatedTasks ++ [payload]
  | OfflineAction.update _ payload _ =>
    match updateFirstTask payload.id (fun _ => payload) updatedTasks with
    | none => updatedTasks
    | some (_, ts) => ts
  | OfflineAction.delete _ payloadId _ =>
    updatedTasks.filter (fun t => t.id != payloadId)

/-- syncService.processOfflineActions (src/services/sync.ts lines 287-319):
reads the stored action log, folds it in append (FIFO) order into a working
copy of the snapshot argument, then unconditionally clears the stored log and
returns the folded collection (it does not itself write the folded tasks back
to durable storage). -/
def syncService.processOfflineActions (st : LocalState) (tasks : List Task) :
    List Task × LocalState :=
  let updatedTasks := st.actions.foldl syncService.applyOfflineAction tasks
  (updatedTasks, syncService.clearOfflineActions st)

/-- useTaskStore.toggleTaskComplete (src/store/taskStore.ts lines 158-186):
the in-memory effect on the store's `tasks` array.  The store looks the task
up, throws `'Task not found'` on a miss, calls the backend (or the
taskService fallback), and then patches ONLY the `completed` flag of the
matching task in the in-memory collection — `status` is left as it was. -/
def useTaskStore.toggleTaskComplete (tasks : List Task) (taskId : String) :
    Except String (List Task) :=
  match tasks.find? (fun t => t.id == taskId) with
  | none => Except.error "Task not found"
  | some existing =>
    let newCompleted := !existing.completed
    Except.ok (tasks.map (fun task =>
      if task.id == taskId then { task with completed := newCompleted } else task))

/-- useTaskStore.updateTaskStatus (src/store/taskStore.ts lines 189-210): the
in-memory effect patches ONLY `status`, leaving `completed` as it was. -/
def useTaskStore.updateTaskStatus (tasks : List Task) (taskId : String)
    (status : TaskStatus) : List Task :=
  tasks.map (fun task =>
    if task.id == taskId then { task with status := status } else task)

/-- The sort keys accepted by `useTaskStore.filterTasks`:
`'assignedDate' | 'dueDate' | 'title'`. -/
inductive SortKey : Type
  | assignedDate
  | dueDate
  | title
deriving DecidableEq

/-- JavaScript `haystack.includes(needle)` — substring containment, checked at
every starting position. -/
def charsInclude (needle : List Char) : List Char → Bool
  | [] => needle.isEmpty
  | c :: rest => needle.isPrefixOf (c :: rest) || charsInclude needle rest

/-- String-level wrapper for `haystack.includes(needle)`. -/
def strIncludes (haystack needle : String) : Bool :=
  charsInclude needle.toList haystack.toList

/-- The comparator passed to `filtered.sort` in `useTaskStore.filterTasks`
(src/store/taskStore.ts lines 258-275).  `new Date(s).getTime()` is an
environment-supplied numeric interpretation of a timestamp string, passed in
as `getTime`; `localeCompare` is modelled as lexicographic string comparison.
For `'dueDate'`, a task lacking a due date compares after any task that has
one, and two tasks both lacking one compare equal. -/
def cmpTasks (getTime : String → Int) : SortKey → Task → Task → Int
  | SortKey.assignedDate, a, b => getTime a.assignedDate - getTime b.assignedDate
  | SortKey.dueDate, a, b =>
    match a.dueDate, b.dueDate with
    | none, none => 0
    | none, some _ => 1
    | some _, none => -1
    | some x, some y => getTime x - getTime y
  | SortKey.title, a, b =>
    if a.title < b.title then -1 else if a.title = b.title then 0 else 1

/-- The boolean "a sorts no later than b" order induced by the comparator, as
used by a comparator-driven (stable) sort. -/
def taskLe (getTime : String → Int) (k : SortKey) (a b : Task) : Bool :=
  cmpTasks getTime k a b ≤ 0

/-- JavaScript truthiness of `searchQuery.trim()`: the trimmed string is
non-empty exactly when the original contains a non-whitespace character. -/
def hasNonBlank (s : String) : Bool :=
  s.toList.any (fun c => !c.isWhitespace)

/-- The search-query predicate of `useTaskStore.filterTasks` (lines 243-250):
case-insensitive substring match of the (untrimmed, lowercased) query against
the lowercased title or description. -/
def matchesQuery (searchQuery : String) (t : Task) : Bool :=
  strIncludes t.title.toLower searchQuery.toLower ||
  strIncludes t.description.toLower searchQuery.toLower

/-- useTaskStore.filterTasks (src/store/taskStore.ts lines 235-278): a pure
function of the in-memory snapshot.  When the query is non-blank
(`searchQuery.trim()` truthy) keep the tasks matching it; when a status filter
is given keep the tasks with exactly that status; finally sort by the chosen
key (the JS engine's `Array.prototype.sort` with a consistent comparator,
modelled as a stable merge sort over the induced order). -/
def useTaskStore.filterTasks (getTime : String → Int) (tasks : List Task)
    (searchQuery : String) (sortBy : SortKey)
    (filterByStatus : Option TaskStatus) : List Task :=
  let f1 :=
    if hasNonBlank searchQuery then
      tasks.filter (matchesQuery searchQuery)
    else tasks
  let f2 :=
    match filterByStatus with
    | some s => f1.filter (fun t : Task => t.status == s)
    | none => f1
  f2.mergeSort (taskLe getTime sortBy)

/-- The data-model invariant of spec §3: `completed == (status == completed)`
for a single task. -/
def Task.statusConsistent (t : Task) : Bool :=
  t.completed == (t.status == TaskStatus.completed)

/-- The invariant over a whole task collection. -/
def tasksConsistent (tasks : List Task) : Bool :=
  tasks.all Task.statusConsistent

/-- Condition on a `Partial<Task>` under which the merge in
`taskService.updateTask` keeps the `completed`/`status` pair consistent: the
updates either touch neither field or set both, consistently. -/
def consistentUpdates (u : TaskUpdates) : Bool :=
  match u.completed, u.status with
  | none, none => true
  | some b, some s => b == (s == TaskStatus.completed)
  | _, _ => false

/-- A concrete task used by witnesses and counterexamples. -/
def sampleTask : Task :=
  { id := "t1"
    title := "A"
    description := "write the report"
    completed := false
    status := TaskStatus.not_started
    assignedDate := "2024-01-01T00:00:00.000Z"
    dueDate := none
    createdAt := "2024-01-01T00:00:00.000Z"
    updatedAt := "2024-01-01T00:00:00.000Z"
    userId := "u1" }

/-! Helper lemmas about the list-manipulation cores of the operations. -/

/-- Full case analysis of `updateFirstTask`: either no task matches and the
result is `none`, or the list splits as `pre ++ t :: post` with `t` the first
match, and exactly `t` is rewritten in place. -/
theorem updateFirstTask_cases (taskId : String) (upd : Task → Task)
    (ts : List Task) :
    (updateFirstTask taskId upd ts = none ∧ ∀ x ∈ ts, (x.id == taskId) = false) ∨
    (∃ pre t post, ts = pre ++ t :: post ∧
      (∀ x ∈ pre, (x.id == taskId) = false) ∧ (t.id == taskId) = true ∧
      updateFirstTask taskId upd ts = some (upd t, pre ++ upd t :: post)) := by
  induction ts with
  | nil => exact Or.inl ⟨rfl, by simp⟩
  | cons t ts ih =>
    cases htid : (t.id == taskId) with
    | true =>
      exact Or.inr ⟨[], t, ts, rfl, by simp, htid, by simp [updateFirstTask, htid]⟩
    | false =>
      rcases ih with ⟨hnone, hall⟩ | ⟨pre, u, post, hts, hpre, hu, hsome⟩
      · refine Or.inl ⟨by simp [updateFirstTask, htid, hnone], ?_⟩
        intro x hx
        rcases List.mem_cons.mp hx with rfl | hx
        · exact htid
        · exact hall x hx
      · refine Or.inr ⟨t :: pre, u, post, by simp [hts], ?_, hu, ?_⟩
        · intro x hx
          rcases List.mem_cons.mp hx with rfl | hx
          · exact htid
          · exact hpre x hx
        · simp [updateFirstTask, htid, hsome]

/-- When every task in `pre` misses the id and `t` matches it,
`updateFirstTask` rewrites exactly `t`, in place. -/
theorem updateFirstTask_append (taskId : String) (upd : Task → Task)
    (pre : List Task) (t : Task) (post : List Task)
    (hpre : ∀ x ∈ pre, (x.id == taskId) = false)
    (ht : (t.id == taskId) = true) :
    updateFirstTask taskId upd (pre ++ t :: post) =
      some (upd t, pre ++ upd t :: post) := by
  induction pre with
  | nil => simp [updateFirstTask, ht]
  | cons a pre ih =>
    have ha : (a.id == taskId) = false := hpre a (by simp)
    have ih2 := ih (fun x hx => hpre x (by simp [hx]))
    simp [updateFirstTask, ha, ih2]

/-- When no task matches, `updateFirstTask` returns `none`. -/
theorem updateFirstTask_none (taskId : String) (upd : Task → Task)
    (ts : List Task) (h : ∀ x ∈ ts, (x.id == taskId) = false) :
    updateFirstTask taskId upd ts = none := by
  rcases updateFirstTask_cases taskId upd ts with ⟨hnone, _⟩ | ⟨pre, t, post, hts, _, ht, _⟩
  · exact hnone
  · have := h t (by simp [hts])
    rw [this] at ht
    cases ht

/-- A successful `find?` splits the list around its first hit. -/
theorem find?_id_decomp {p : Task → Bool} {ts : List Task} {t : Task}
    (h : ts.find? p = some t) :
    ∃ pre post, ts = pre ++ t :: post ∧ (∀ x ∈ pre, p x = false) ∧ p t = true := by
  induction ts with
  | nil => simp [List.find?] at h
  | cons a ts ih =>
    rw [List.find?_cons] at h
    cases ha : p a with
    | true =>
      rw [ha] at h
      simp only [Option.some.injEq] at h
      exact ⟨[], ts, by simp [h], by simp, h ▸ ha⟩
    | false =>
      rw [ha] at h
      rcases ih h with ⟨pre, post, hts, hpre, ht⟩
      refine ⟨a :: pre, post, by simp [hts], ?_, ht⟩
      intro x hx
      rcases List.mem_cons.mp hx with rfl | hx
      · exact ha
      · exact hpre x hx

/-- Dual of `find?_id_decomp`: `find?` on a split list returns the pivot when
everything before it fails the predicate. -/
theorem find?_append_cons {p : Task → Bool} (pre : List Task) (t : Task)
    (post : List Task) (hpre : ∀ x ∈ pre, p x = false) (ht : p t = true) :
    (pre ++ t :: post).find? p = some t := by
  induction pre with
  | nil => simp [List.find?_cons, ht]
  | cons a pre ih =>
    have ha : p a = false := hpre a (by simp)
    have ih2 := ih (fun x hx => hpre x (by simp [hx]))
    simp [List.find?_cons, ha, ih2]

/-- Evaluation of `taskService.updateTask` when the target id is absent: the
`'Task not found'` error is raised and the state comes back unchanged. -/
theorem updateTask_not_found (st : LocalState) (taskId : String)
    (updates : TaskUpdates) (now actionId : String) (online syncOk : Bool)
    (h : ∀ x ∈ st.tasks, (x.id == taskId) = false) :
    taskService.updateTask st taskId updates now actionId online syncOk =
      (Except.error "Task not found", st) := by
  have hnone := updateFirstTask_none taskId
    (fun old => mergeUpdates old updates now) st.tasks h
  simp [taskService.updateTask, hnone]

/-- Evaluation of `taskService.updateTask` when the target is the first match:
the merged task replaces the old one in place, `updatedAt` is refreshed, and
an UPDATE offline action is queued exactly when the mutation could not be
pushed. -/
theorem updateTask_found (st : LocalState) (taskId : String)
    (updates : TaskUpdates) (now actionId : String) (online syncOk : Bool)
    (pre post : List Task) (t : Task)
    (hts : st.tasks = pre ++ t :: post)
    (hpre : ∀ x ∈ pre, (x.id == taskId) = false)
    (ht : (t.id == taskId) = true) :
    taskService.updateTask st taskId updates now actionId online syncOk =
      (Except.ok (mergeUpdates t updates now),
        ⟨pre ++ mergeUpdates t updates now :: post,
          if online && syncOk then st.actions
          else st.actions ++
            [OfflineAction.update actionId (mergeUpdates t updates now) now]⟩) := by
  have hup := updateFirstTask_append taskId
    (fun old => mergeUpdates old updates now) pre t post hpre ht
  simp [taskService.updateTask, hts, hup]

/-- Evaluation of `taskService.toggleTaskComplete` when the target is the
first match: `completed` flips, `status` becomes `'completed'` when the flip
turns the flag on and `'not_started'` when it turns it off, `updatedAt` is
refreshed, all other fields survive, and an UPDATE offline action is queued
exactly when the mutation could not be pushed. -/
theorem toggleTaskComplete_found (st : LocalState) (taskId : String)
    (now actionId : String) (online syncOk : Bool)
    (pre post : List Task) (t : Task)
    (hts : st.tasks = pre ++ t :: post)
    (hpre : ∀ x ∈ pre, (x.id == taskId) = false)
    (ht : (t.id == taskId) = true) :
    taskService.toggleTaskComplete st taskId now actionId online syncOk =
      (Except.ok (toggledTask t now),
        ⟨pre ++ toggledTask t now :: post,
          if online && syncOk then st.actions
          else st.actions ++
            [OfflineAction.update actionId (toggledTask t now) now]⟩) := by
  have hfind : st.tasks.find? (fun x => x.id == taskId) = some t := by
    rw [hts]
    exact find?_append_cons pre t post hpre ht
  have hmerge : mergeUpdates t
      { completed := some (!t.completed),
        status := some (if t.completed then TaskStatus.not_started
                        else TaskStatus.completed) } now = toggledTask t now := by
    cases t
    rfl
  have hupd := updateTask_found st taskId
    { completed := some (!t.completed),
      status := some (if t.completed then TaskStatus.not_started
                      else TaskStatus.completed) }
    now actionId online syncOk pre post t hts hpre ht
  rw [hmerge] at hupd
  simp only [taskService.toggleTaskComplete, hfind]
  exact hupd

/-- C3: for every stored state and every snapshot argument, after
`syncService.processOfflineActions` returns, the persisted offline action log
is empty — the log is cleared unconditionally after the fold (the returned
state is exactly `clearOfflineActions` of the input state), with no
partial-success bookkeeping tied to what the individual fold steps did. -/
theorem processOfflineActions_clears_log_unconditionally
    (st : LocalState) (tasks : List Task) :
    (syncService.processOfflineActions st tasks).2.actions = [] ∧
    (syncService.processOfflineActions st tasks).2 =
      syncService.clearOfflineActions st :=
  ⟨rfl, rfl⟩

/-- C2: the replay fold of `syncService.processOfflineActions` processes the
log in append (FIFO) order, head (oldest) first, with these per-action
semantics: CREATE appends the payload task at the end with no duplicate-id
check; UPDATE replaces the (first) task whose id matches the payload's id and
is silently dropped when no task matches; DELETE removes the task(s) with the
payload id and is a silent no-op when none matches.  Replaying
`[CREATE(t1), UPDATE(t1 with title := "X"), DELETE(t1)]` against the empty
snapshot yields the empty collection. -/
theorem processOfflineActions_replay_semantics :
    (∀ (ts : List Task) (aid : String) (t : Task) (ats : String),
      syncService.applyOfflineAction ts (OfflineAction.create aid t ats) =
        ts ++ [t]) ∧
    (∀ (ts : List Task) (aid : String) (t : Task) (ats : String),
      (∀ x ∈ ts, (x.id == t.id) = false) →
      syncService.applyOfflineAction ts (OfflineAction.update aid t ats) = ts) ∧
    (∀ (aid : String) (t : Task) (ats : String) (pre : List Task) (old : Task)
      (post : List Task),
      (∀ x ∈ pre, (x.id == t.id) = false) → (old.id == t.id) = true →
      syncService.applyOfflineAction (pre ++ old :: post)
        (OfflineAction.update aid t ats) = pre ++ t :: post) ∧
    (∀ (ts : List Task) (aid pid ats : String),
      syncService.applyOfflineAction ts (OfflineAction.delete aid pid ats) =
        ts.filter (fun x => x.id != pid)) ∧
    (∀ (ts : List Task) (aid pid ats : String),
      (∀ x ∈ ts, (x.id == pid) = false) →
      syncService.applyOfflineAction ts (OfflineAction.delete aid pid ats) = ts) ∧
    (∀ (st : LocalState) (tasks : List Task) (a : OfflineAction)
      (rest : List OfflineAction),
      st.actions = a :: rest →
      (syncService.processOfflineActions st tasks).1 =
        (syncService.processOfflineActions ⟨st.tasks, rest⟩
          (syncService.applyOfflineAction tasks a)).1) ∧
    (syncService.processOfflineActions
      ⟨[], [OfflineAction.create "a1" sampleTask "ts1",
            OfflineAction.update "a2" { sampleTask with title := "X" } "ts2",
            OfflineAction.delete "a3" "t1" "ts3"]⟩ []).1 = [] := by
  refine ⟨fun ts aid t ats => rfl, ?_, ?_, fun ts aid pid ats => rfl, ?_, ?_, ?_⟩
  · intro ts aid t ats h
    have hnone := updateFirstTask_none t.id (fun _ => t) ts h
    simp [syncService.applyOfflineAction, hnone]
  · intro aid t ats pre old post hpre hold
    have hup := updateFirstTask_append t.id (fun _ => t) pre old post hpre hold
    simp [syncService.applyOfflineAction, hup]
  · intro ts aid pid ats h
    have hfil : ts.filter (fun x => x.id != pid) = ts :=
      List.filter_eq_self.mpr (fun a ha => by simp [bne, h a ha])
    simp [syncService.applyOfflineAction, hfil]
  · intro st tasks a rest hact
    simp [syncService.processOfflineActions, hact]
  · rfl

/-- Witness for C2 at concrete inputs: an UPDATE against an empty collection
is dropped, an UPDATE whose id matches the single stored task replaces it,
a DELETE for an absent id is a no-op, and the head action of a two-action log
is folded first. -/
theorem processOfflineActions_replay_semantics_witness :
    syncService.applyOfflineAction []
      (OfflineAction.update "a2" sampleTask "ts") = [] ∧
    syncService.applyOfflineAction [sampleTask]
      (OfflineAction.update "a2" { sampleTask with title := "X" } "ts") =
      [{ sampleTask with title := "X" }] ∧
    syncService.applyOfflineAction [sampleTask]
      (OfflineAction.delete "a4" "zzz" "ts") = [sampleTask] ∧
    (syncService.processOfflineActions
      ⟨[], [OfflineAction.create "a1" sampleTask "ts1",
            OfflineAction.delete "a3" "t1" "ts3"]⟩ []).1 =
      (syncService.processOfflineActions ⟨[], [OfflineAction.delete "a3" "t1" "ts3"]⟩
        (syncService.applyOfflineAction []
          (OfflineAction.create "a1" sampleTask "ts1"))).1 :=
  ⟨processOfflineActions_replay_semantics.2.1 [] "a2" sampleTask "ts" (by simp),
   processOfflineActions_replay_semantics.2.2.1 "a2"
     { sampleTask with title := "X" } "ts" [] sampleTask [] (by simp) (by decide),
   processOfflineActions_replay_semantics.2.2.2.2.1 [sampleTask] "a4" "zzz" "ts"
     (by decide),
   processOfflineActions_replay_semantics.2.2.2.2.2.1
     ⟨[], [OfflineAction.create "a1" sampleTask "ts1",
           OfflineAction.delete "a3" "t1" "ts3"]⟩ []
     (OfflineAction.create "a1" sampleTask "ts1")
     [OfflineAction.delete "a3" "t1" "ts3"] rfl⟩

/-- C4: on a task id absent from the stored collection, `updateTask`,
`deleteTask` and `toggleTaskComplete` all fail with the `'Task not found'`
condition, and the error is raised before any persistence write: the stored
task collection and the offline action log come back exactly as they were. -/
theorem unknown_id_mutations_fail_without_write
    (st : LocalState) (taskId : String) (updates : TaskUpdates)
    (now actionId : String) (online syncOk : Bool)
    (h : ∀ x ∈ st.tasks, (x.id == taskId) = false) :
    taskService.updateTask st taskId updates now actionId online syncOk =
      (Except.error "Task not found", st) ∧
    taskService.deleteTask st taskId now actionId online syncOk =
      (Except.error "Task not found", st) ∧
    taskService.toggleTaskComplete st taskId now actionId online syncOk =
      (Except.error "Task not found", st) := by
  refine ⟨updateTask_not_found st taskId updates now actionId online syncOk h,
    ?_, ?_⟩
  · have hfil : st.tasks.filter (fun t => t.id != taskId) = st.tasks :=
      List.filter_eq_self.mpr (fun a ha => by simp [bne, h a ha])
    simp [taskService.deleteTask, hfil]
  · have hfind : st.tasks.find? (fun t => t.id == taskId) = none :=
      List.find?_eq_none.mpr (fun x hx => by simp [h x hx])
    simp [taskService.toggleTaskComplete, hfind]

/-- Witness for C4 at a concrete input: the store holds only `sampleTask`
(id `t1`) and the operations target the unknown id `zzz`. -/
theorem unknown_id_mutations_fail_without_write_witness :
    taskService.updateTask ⟨[sampleTask], []⟩ "zzz" {} "T2" "a1" true true =
      (Except.error "Task not found", ⟨[sampleTask], []⟩) ∧
    taskService.deleteTask ⟨[sampleTask], []⟩ "zzz" "T2" "a1" true true =
      (Except.error "Task not found", ⟨[sampleTask], []⟩) ∧
    taskService.toggleTaskComplete ⟨[sampleTask], []⟩ "zzz" "T2" "a1" true true =
      (Except.error "Task not found", ⟨[sampleTask], []⟩) :=
  unknown_id_mutations_fail_without_write ⟨[sampleTask], []⟩ "zzz" {} "T2" "a1"
    true true (by decide)

/-- C6: when the stored collection (with its data-model-unique ids) contains
a task with the target id, `deleteTask` succeeds, removes exactly that one
task from the stored snapshot, and leaves every other task unchanged and in
its original relative order; exactly one element disappears. -/
theorem deleteTask_removes_exactly_one
    (st : LocalState) (taskId : String) (now actionId : String)
    (online syncOk : Bool) (pre post : List Task) (t : Task)
    (hst : st.tasks = pre ++ t :: post)
    (hnodup : (st.tasks.map Task.id).Nodup)
    (ht : t.id = taskId) :
    taskService.deleteTask st taskId now actionId online syncOk =
      (Except.ok (),
        ⟨pre ++ post,
          if online && syncOk then st.actions
          else st.actions ++ [OfflineAction.delete actionId taskId now]⟩) ∧
    st.tasks.length = (pre ++ post).length + 1 := by
  subst ht
  have hmap : st.tasks.map Task.id =
      pre.map Task.id ++ t.id :: post.map Task.id := by simp [hst]
  rw [hmap] at hnodup
  rcases List.nodup_append.mp hnodup with ⟨h1, h2, hdisj⟩
  have hpost : t.id ∉ post.map Task.id := (List.nodup_cons.mp h2).1
  have hpre : t.id ∉ pre.map Task.id :=
    fun hmem => hdisj hmem (List.mem_cons_self _ _)
  have hprefil : ∀ x ∈ pre, (x.id != t.id) = true := by
    intro x hx
    simp only [bne_iff_ne, ne_eq]
    intro hxeq
    exact hpre (hxeq ▸ List.mem_map_of_mem Task.id hx)
  have hpostfil : ∀ x ∈ post, (x.id != t.id) = true := by
    intro x hx
    simp only [bne_iff_ne, ne_eq]
    intro hxeq
    exact hpost (hxeq ▸ List.mem_map_of_mem Task.id hx)
  have hfil : st.tasks.filter (fun x => x.id != t.id) = pre ++ post := by
    rw [hst, List.filter_append, List.filter_eq_self.mpr hprefil,
      List.filter_cons]
    simp [List.filter_eq_self.mpr hpostfil]
  have hlen : st.tasks.length = (pre ++ post).length + 1 := by
    rw [hst]
    simp [List.length_append]
    omega
  have hne : (st.tasks.length == (pre ++ post).length) = false := by
    rw [beq_eq_false_iff_ne, hlen]
    omega
  refine ⟨?_, hlen⟩
  simp only [taskService.deleteTask, hfil, hne]
  simp

/-- Witness for C6 at a concrete input: deleting `t1` from the two-task store
`[sampleTask, otherTask]` removes exactly `sampleTask` (here offline, so a
DELETE action is also queued; the `if` collapses since `online = false`). -/
theorem deleteTask_removes_exactly_one_witness :
    taskService.deleteTask ⟨[sampleTask, { sampleTask with id := "t2" }], []⟩
      "t1" "T2" "a1" false true =
      (Except.ok (),
        ⟨[] ++ [{ sampleTask with id := "t2" }],
          if false && true then ([] : List OfflineAction)
          else [] ++ [OfflineAction.delete "a1" "t1" "T2"]⟩) ∧
    ([sampleTask, { sampleTask with id := "t2" }] : List Task).length =
      (([] : List Task) ++ [{ sampleTask with id := "t2" }]).length + 1 :=
  deleteTask_removes_exactly_one
    ⟨[sampleTask, { sampleTask with id := "t2" }], []⟩ "t1" "T2" "a1" false true
    [] [{ sampleTask with id := "t2" }] sampleTask rfl (by decide) rfl

/-- C7: for every valid input (non-empty title, any description, user id and
optional due date) and a generated identifier not already present,
`createTask` returns a task with `completed = false`,
`status = 'not_started'`, the fresh identifier, and
`assignedDate = createdAt`; the returned task is appended at the end of the
stored snapshot, where its id occurs exactly once. -/
theorem createTask_defaults_and_appends
    (st : LocalState) (title description userId : String)
    (dueDate : Option String) (now freshId actionId : String)
    (online syncOk : Bool)
    (htitle : title ≠ "")
    (hfresh : ∀ x ∈ st.tasks, (x.id == freshId) = false) :
    (taskService.createTask st title description userId dueDate now freshId
      actionId online syncOk).1.completed = false ∧
    (taskService.createTask st title description userId dueDate now freshId
      actionId online syncOk).1.status = TaskStatus.not_started ∧
    (taskService.createTask st title description userId dueDate now freshId
      actionId online syncOk).1.id = freshId ∧
    (taskService.createTask st title description userId dueDate now freshId
      actionId online syncOk).1.assignedDate =
      (taskService.createTask st title description userId dueDate now freshId
        actionId online syncOk).1.createdAt ∧
    (taskService.createTask st title description userId dueDate now freshId
      actionId online syncOk).2.tasks =
      st.tasks ++ [(taskService.createTask st title description userId dueDate
        now freshId actionId online syncOk).1] ∧
    ((taskService.createTask st title description userId dueDate now freshId
      actionId online syncOk).2.tasks.filter
        (fun x => x.id == freshId)).length = 1 := by
  refine ⟨rfl, rfl, rfl, rfl, rfl, ?_⟩
  have hnil : st.tasks.filter (fun x : Task => x.id == freshId) = [] := by
    rw [List.filter_eq_nil_iff]
    intro a ha
    simp [hfresh a ha]
  simp [taskService.createTask, List.filter_append, hnil]

/-- Witness for C7 at a concrete input: creating task `t9` titled `"B"` over
a store holding only `sampleTask`. -/
theorem createTask_defaults_and_appends_witness :
    (taskService.createTask ⟨[sampleTask], []⟩ "B" "d" "u2" none "T9" "t9" "a9"
      false false).1.completed = false ∧
    (taskService.createTask ⟨[sampleTask], []⟩ "B" "d" "u2" none "T9" "t9" "a9"
      false false).1.status = TaskStatus.not_started ∧
    (taskService.createTask ⟨[sampleTask], []⟩ "B" "d" "u2" none "T9" "t9" "a9"
      false false).1.id = "t9" ∧
    (taskService.createTask ⟨[sampleTask], []⟩ "B" "d" "u2" none "T9" "t9" "a9"
      false false).1.assignedDate =
      (taskService.createTask ⟨[sampleTask], []⟩ "B" "d" "u2" none "T9" "t9" "a9"
        false false).1.createdAt ∧
    (taskService.createTask ⟨[sampleTask], []⟩ "B" "d" "u2" none "T9" "t9" "a9"
      false false).2.tasks =
      [sampleTask] ++ [(taskService.createTask ⟨[sampleTask], []⟩ "B" "d" "u2"
        none "T9" "t9" "a9" false false).1] ∧
    ((taskService.createTask ⟨[sampleTask], []⟩ "B" "d" "u2" none "T9" "t9" "a9"
      false false).2.tasks.filter (fun x => x.id == "t9")).length = 1 :=
  createTask_defaults_and_appends ⟨[sampleTask], []⟩ "B" "d" "u2" none "T9" "t9"
    "a9" false false (by decide) (by decide)

/-- C8: when connectivity is absent (`checkConnectivity` reports false), each
mutating facade call that finds its target succeeds locally (no error reaches
the caller) and appends exactly one offline action of the corresponding kind
to the offline action log: CREATE and UPDATE carrying the full task, DELETE
carrying only the id. -/
theorem offline_mutations_queue_one_action
    (st : LocalState) (title description userId : String)
    (dueDate : Option String) (taskId : String) (updates : TaskUpdates)
    (now freshId actionId : String) (syncOk : Bool)
    (pre post : List Task) (t : Task)
    (hst : st.tasks = pre ++ t :: post)
    (hpre : ∀ x ∈ pre, (x.id == taskId) = false)
    (ht : (t.id == taskId) = true) :
    (taskService.createTask st title description userId dueDate now freshId
      actionId false syncOk).2.actions =
      st.actions ++ [OfflineAction.create actionId
        (taskService.createTask st title description userId dueDate now freshId
          actionId false syncOk).1 now] ∧
    (taskService.updateTask st taskId updates now actionId false syncOk).1 =
      Except.ok (mergeUpdates t updates now) ∧
    (taskService.updateTask st taskId updates now actionId false
      syncOk).2.actions =
      st.actions ++ [OfflineAction.update actionId (mergeUpdates t updates now)
        now] ∧
    (taskService.deleteTask st taskId now actionId false syncOk).1 =
      Except.ok () ∧
    (taskService.deleteTask st taskId now actionId false syncOk).2.actions =
      st.actions ++ [OfflineAction.delete actionId taskId now] := by
  have hupd := updateTask_found st taskId updates now actionId false syncOk
    pre post t hst hpre ht
  have hteq : t.id = taskId := beq_iff_eq.mp ht
  have hlt : ((st.tasks.filter (fun x => x.id != taskId)).length <
      st.tasks.length) := by
    refine List.length_filter_lt_length_iff_exists.mpr ⟨t, ?_, ?_⟩
    · simp [hst]
    · simp [hteq]
  have hbf : (st.tasks.length ==
      (st.tasks.filter (fun x => x.id != taskId)).length) = false := by
    rw [beq_eq_false_iff_ne]
    omega
  refine ⟨rfl, ?_, ?_, ?_, ?_⟩
  · rw [hupd]
  · rw [hupd]
    simp
  · simp only [taskService.deleteTask, hbf]
    simp
  · simp only [taskService.deleteTask, hbf]
    simp

/-- Witness for C8 at a concrete input: with connectivity absent, creating,
updating and deleting against the one-task store each queue one action. -/
theorem offline_mutations_queue_one_action_witness :
    (taskService.createTask ⟨[sampleTask], []⟩ "B" "d" "u2" none "T9" "t9" "a9"
      false true).2.actions =
      [] ++ [OfflineAction.create "a9"
        (taskService.createTask ⟨[sampleTask], []⟩ "B" "d" "u2" none "T9" "t9"
          "a9" false true).1 "T9"] ∧
    (taskService.updateTask ⟨[sampleTask], []⟩ "t1" { title := some "C" } "T9"
      "a9" false true).1 =
      Except.ok (mergeUpdates sampleTask { title := some "C" } "T9") ∧
    (taskService.updateTask ⟨[sampleTask], []⟩ "t1" { title := some "C" } "T9"
      "a9" false true).2.actions =
      [] ++ [OfflineAction.update "a9"
        (mergeUpdates sampleTask { title := some "C" } "T9") "T9"] ∧
    (taskService.deleteTask ⟨[sampleTask], []⟩ "t1" "T9" "a9" false true).1 =
      Except.ok () ∧
    (taskService.deleteTask ⟨[sampleTask], []⟩ "t1" "T9" "a9" false
      true).2.actions = [] ++ [OfflineAction.delete "a9" "t1" "T9"] :=
  offline_mutations_queue_one_action ⟨[sampleTask], []⟩ "B" "d" "u2" none "t1"
    { title := some "C" } "T9" "t9" "a9" true [] [] sampleTask rfl (by simp)
    (by decide)

/-- C5: on a task present in the stored collection, `toggleTaskComplete`
twice returns the `completed` flag to its original value, and after each
single application `status` tracks `completed`: the status is `'completed'`
exactly when the flag is true (the toggled status always lands in the
not_started/completed pair). -/
theorem toggleTaskComplete_involution
    (st : LocalState) (taskId : String) (now1 aid1 now2 aid2 : String)
    (on1 ok1 on2 ok2 : Bool) (t : Task)
    (h : st.tasks.find? (fun x => x.id == taskId) = some t) :
    ∃ st1 st2,
      taskService.toggleTaskComplete st taskId now1 aid1 on1 ok1 =
        (Except.ok (toggledTask t now1), st1) ∧
      taskService.toggleTaskComplete st1 taskId now2 aid2 on2 ok2 =
        (Except.ok (toggledTask (toggledTask t now1) now2), st2) ∧
      (toggledTask t now1).completed = !t.completed ∧
      (toggledTask (toggledTask t now1) now2).completed = t.completed ∧
      ((toggledTask t now1).status == TaskStatus.completed) =
        (toggledTask t now1).completed ∧
      ((toggledTask (toggledTask t now1) now2).status == TaskStatus.completed) =
        (toggledTask (toggledTask t now1) now2).completed := by
  rcases find?_id_decomp h with ⟨pre, post, hst, hpre, ht⟩
  have h1 := toggleTaskComplete_found st taskId now1 aid1 on1 ok1 pre post t
    hst hpre ht
  have hid1 : ((toggledTask t now1).id == taskId) = true := ht
  have hst1 : (LocalState.mk (pre ++ toggledTask t now1 :: post)
      (if on1 && ok1 then st.actions
       else st.actions ++ [OfflineAction.update aid1 (toggledTask t now1) now1])).tasks =
      pre ++ toggledTask t now1 :: post := rfl
  have h2 := toggleTaskComplete_found
    (LocalState.mk (pre ++ toggledTask t now1 :: post)
      (if on1 && ok1 then st.actions
       else st.actions ++ [OfflineAction.update aid1 (toggledTask t now1) now1]))
    taskId now2 aid2 on2 ok2 pre post (toggledTask t now1) hst1 hpre hid1
  refine ⟨_, _, h1, h2, rfl, ?_, ?_, ?_⟩
  · simp [toggledTask]
  · cases hc : t.completed <;> simp [toggledTask, hc]
  · cases hc : t.completed <;> simp [toggledTask, hc]

/-- Witness for C5 at a concrete input: toggling `sampleTask` twice. -/
theorem toggleTaskComplete_involution_witness :
    ∃ st1 st2,
      taskService.toggleTaskComplete ⟨[sampleTask], []⟩ "t1" "T2" "a1" false
        true = (Except.ok (toggledTask sampleTask "T2"), st1) ∧
      taskService.toggleTaskComplete st1 "t1" "T3" "a2" false true =
        (Except.ok (toggledTask (toggledTask sampleTask "T2") "T3"), st2) ∧
      (toggledTask sampleTask "T2").completed = !sampleTask.completed ∧
      (toggledTask (toggledTask sampleTask "T2") "T3").completed =
        sampleTask.completed ∧
      ((toggledTask sampleTask "T2").status == TaskStatus.completed) =
        (toggledTask sampleTask "T2").completed ∧
      ((toggledTask (toggledTask sampleTask "T2") "T3").status ==
        TaskStatus.completed) =
        (toggledTask (toggledTask sampleTask "T2") "T3").completed :=
  toggleTaskComplete_involution ⟨[sampleTask], []⟩ "t1" "T2" "a1" "T3" "a2"
    false true false true sampleTask (by decide)

/-- C10: `toggleTaskComplete` never produces a task whose status is
`'in_progress'`: a single toggle of a task with `completed = false` (whatever
its status, `'in_progress'` included) yields `status = 'completed'` and
`completed = true`; a single toggle of a task with `completed = true` yields
`status = 'not_started'` and `completed = false`; and a second toggle again
lands in the not_started/completed pair, so an original `'in_progress'`
status is never restored. -/
theorem toggleTaskComplete_never_in_progress
    (st : LocalState) (taskId : String) (now1 aid1 now2 aid2 : String)
    (on1 ok1 on2 ok2 : Bool) (t : Task)
    (h : st.tasks.find? (fun x => x.id == taskId) = some t) :
    ∃ st1 st2,
      taskService.toggleTaskComplete st taskId now1 aid1 on1 ok1 =
        (Except.ok (toggledTask t now1), st1) ∧
      (t.completed = false →
        (toggledTask t now1).status = TaskStatus.completed ∧
        (toggledTask t now1).completed = true) ∧
      (t.completed = true →
        (toggledTask t now1).status = TaskStatus.not_started ∧
        (toggledTask t now1).completed = false) ∧
      (toggledTask t now1).status ≠ TaskStatus.in_progress ∧
      taskService.toggleTaskComplete st1 taskId now2 aid2 on2 ok2 =
        (Except.ok (toggledTask (toggledTask t now1) now2), st2) ∧
      (toggledTask (toggledTask t now1) now2).status ≠
        TaskStatus.in_progress := by
  rcases find?_id_decomp h with ⟨pre, post, hst, hpre, ht⟩
  have h1 := toggleTaskComplete_found st taskId now1 aid1 on1 ok1 pre post t
    hst hpre ht
  have hid1 : ((toggledTask t now1).id == taskId) = true := ht
  have hst1 : (LocalState.mk (pre ++ toggledTask t now1 :: post)
      (if on1 && ok1 then st.actions
       else st.actions ++ [OfflineAction.update aid1 (toggledTask t now1) now1])).tasks =
      pre ++ toggledTask t now1 :: post := rfl
  have h2 := toggleTaskComplete_found
    (LocalState.mk (pre ++ toggledTask t now1 :: post)
      (if on1 && ok1 then st.actions
       else st.actions ++ [OfflineAction.update aid1 (toggledTask t now1) now1]))
    taskId now2 aid2 on2 ok2 pre post (toggledTask t now1) hst1 hpre hid1
  refine ⟨_, _, h1, ?_, ?_, ?_, h2, ?_⟩
  · intro hc
    simp [toggledTask, hc]
  · intro hc
    simp [toggledTask, hc]
  · cases hc : t.completed <;> simp [toggledTask, hc]
  · cases hc : t.completed <;> simp [toggledTask, hc]

/-- Witness for C10 at a concrete input: toggling a task that starts in the
`'in_progress'` state with `completed = false`. -/
theorem toggleTaskComplete_never_in_progress_witness :
    ∃ st1 st2,
      taskService.toggleTaskComplete
        ⟨[{ sampleTask with status := TaskStatus.in_progress }], []⟩ "t1" "T2"
        "a1" false true =
        (Except.ok (toggledTask { sampleTask with
          status := TaskStatus.in_progress } "T2"), st1) ∧
      (({ sampleTask with status := TaskStatus.in_progress } : Task).completed
          = false →
        (toggledTask { sampleTask with status := TaskStatus.in_progress }
          "T2").status = TaskStatus.completed ∧
        (toggledTask { sampleTask with status := TaskStatus.in_progress }
          "T2").completed = true) ∧
      (({ sampleTask with status := TaskStatus.in_progress } : Task).completed
          = true →
        (toggledTask { sampleTask with status := TaskStatus.in_progress }
          "T2").status = TaskStatus.not_started ∧
        (toggledTask { sampleTask with status := TaskStatus.in_progress }
          "T2").completed = false) ∧
      (toggledTask { sampleTask with status := TaskStatus.in_progress }
        "T2").status ≠ TaskStatus.in_progress ∧
      taskService.toggleTaskComplete st1 "t1" "T3" "a2" false true =
        (Except.ok (toggledTask (toggledTask { sampleTask with
          status := TaskStatus.in_progress } "T2") "T3"), st2) ∧
      (toggledTask (toggledTask { sampleTask with
        status := TaskStatus.in_progress } "T2") "T3").status ≠
        TaskStatus.in_progress :=
  toggleTaskComplete_never_in_progress
    ⟨[{ sampleTask with status := TaskStatus.in_progress }], []⟩ "t1" "T2" "a1"
    "T3" "a2" false true false true
    { sampleTask with status := TaskStatus.in_progress } (by decide)

/-- Helper for C1: `taskService.updateTask` preserves the
`completed == (status == completed)` invariant whenever the updates either
touch neither of the two fields or set both consistently. -/
theorem updateTask_preserves_consistent
    (st : LocalState) (taskId : String) (updates : TaskUpdates)
    (now actionId : String) (online syncOk : Bool)
    (hc : tasksConsistent st.tasks = true)
    (hu : consistentUpdates updates = true) :
    tasksConsistent (taskService.updateTask st taskId updates now actionId
      online syncOk).2.tasks = true := by
  rcases updateFirstTask_cases taskId (fun old => mergeUpdates old updates now)
      st.tasks with ⟨hnone, _⟩ | ⟨pre, t, post, hts, hpre, htid, hsome⟩
  · simp [taskService.updateTask, hnone, hc]
  · have ht_cons : t.statusConsistent = true :=
      List.all_eq_true.mp hc t (by rw [hts]; simp)
    have hmerged : (mergeUpdates t updates now).statusConsistent = true := by
      have hmc : (mergeUpdates t updates now).completed =
        updates.completed.getD t.completed := rfl
      have hms : (mergeUpdates t updates now).status =
        updates.status.getD t.status := rfl
      rw [Task.statusConsistent, hmc, hms]
      rw [Task.statusConsistent] at ht_cons
      rcases hcu : updates.completed with _ | b <;>
        rcases hsu : updates.status with _ | s <;>
        simp_all [consistentUpdates]
    have hall : tasksConsistent (pre ++ mergeUpdates t updates now :: post)
        = true := by
      rw [tasksConsistent, List.all_eq_true]
      intro x hx
      rcases List.mem_append.mp hx with hx | hx
      · exact List.all_eq_true.mp hc x
          (by rw [hts]; exact List.mem_append_left _ hx)
      · rcases List.mem_cons.mp hx with rfl | hx
        · exact hmerged
        · exact List.all_eq_true.mp hc x
            (by rw [hts]
                exact List.mem_append_right _ (List.mem_cons_of_mem _ hx))
    simp [taskService.updateTask, hsome, hall]

/-- C1 (amended): the invariant `completed == (status == completed)` is
preserved (provided it held before) by `createTask`, `deleteTask`,
`toggleTaskComplete` and `updateTaskStatus`, and by `updateTask` whenever the
partial updates leave the pair consistent — they set neither of `completed`
and `status`, or set both so that `completed = (status == completed)`.  (The
original claim, quantifying over arbitrary `updateTask` updates and the
store wrappers that patch only one of the two fields, is refuted by
`status_invariant_counterexample`.) -/
theorem task_operations_preserve_status_invariant :
    (∀ (st : LocalState) (title description userId : String)
      (dueDate : Option String) (now freshId actionId : String)
      (online syncOk : Bool),
      tasksConsistent st.tasks = true →
      tasksConsistent (taskService.createTask st title description userId
        dueDate now freshId actionId online syncOk).2.tasks = true) ∧
    (∀ (st : LocalState) (taskId now actionId : String) (online syncOk : Bool),
      tasksConsistent st.tasks = true →
      tasksConsistent (taskService.deleteTask st taskId now actionId online
        syncOk).2.tasks = true) ∧
    (∀ (st : LocalState) (taskId : String) (updates : TaskUpdates)
      (now actionId : String) (online syncOk : Bool),
      tasksConsistent st.tasks = true → consistentUpdates updates = true →
      tasksConsistent (taskService.updateTask st taskId updates now actionId
        online syncOk).2.tasks = true) ∧
    (∀ (st : LocalState) (taskId now actionId : String) (online syncOk : Bool),
      tasksConsistent st.tasks = true →
      tasksConsistent (taskService.toggleTaskComplete st taskId now actionId
        online syncOk).2.tasks = true) ∧
    (∀ (st : LocalState) (taskId : String) (status : TaskStatus)
      (now actionId : String) (online syncOk : Bool),
      tasksConsistent st.tasks = true →
      tasksConsistent (taskService.updateTaskStatus st taskId status now
        actionId online syncOk).2.tasks = true) := by
  refine ⟨?_, ?_, ?_, ?_, ?_⟩
  · intro st title description userId dueDate now freshId actionId online
      syncOk hc
    simp [taskService.createTask, tasksConsistent, List.all_append] at hc ⊢
    exact ⟨hc, rfl⟩
  · intro st taskId now actionId online syncOk hc
    cases hb : (st.tasks.length ==
        (st.tasks.filter (fun t => t.id != taskId)).length) with
    | true => simp [taskService.deleteTask, hb, hc]
    | false =>
      simp only [taskService.deleteTask, hb, Bool.false_eq_true, if_false]
      rw [tasksConsistent, List.all_eq_true]
      intro x hx
      exact List.all_eq_true.mp hc x (List.mem_filter.mp hx).1
  · intro st taskId updates now actionId online syncOk hc hu
    exact updateTask_preserves_consistent st taskId updates now actionId
      online syncOk hc hu
  · intro st taskId now actionId online syncOk hc
    cases hfind : st.tasks.find? (fun t => t.id == taskId) with
    | none => simp [taskService.toggleTaskComplete, hfind, hc]
    | some t =>
      have hcu : consistentUpdates
          { completed := some (!t.completed),
            status := some (if t.completed then TaskStatus.not_started
                            else TaskStatus.completed) } = true := by
        cases hc2 : t.completed <;> rfl
      simp only [taskService.toggleTaskComplete, hfind]
      exact updateTask_preserves_consistent st taskId _ now actionId online
        syncOk hc hcu
  · intro st taskId status now actionId online syncOk hc
    have hcu : consistentUpdates
        { status := some status,
          completed := some (status == TaskStatus.completed) } = true := by
      simp [consistentUpdates]
    simp only [taskService.updateTaskStatus]
    exact updateTask_preserves_consistent st taskId _ now actionId online
      syncOk hc hcu

/-- Witness for C1 (amended) at concrete inputs: creating over a consistent
one-task store and marking the task completed through `updateTaskStatus` both
leave the invariant intact. -/
theorem task_operations_preserve_status_invariant_witness :
    tasksConsistent (taskService.createTask ⟨[sampleTask], []⟩ "B" "d" "u2"
      none "T9" "t9" "a9" false true).2.tasks = true ∧
    tasksConsistent (taskService.updateTaskStatus ⟨[sampleTask], []⟩ "t1"
      TaskStatus.completed "T9" "a9" false true).2.tasks = true :=
  ⟨task_operations_preserve_status_invariant.1 ⟨[sampleTask], []⟩ "B" "d" "u2"
      none "T9" "t9" "a9" false true (by decide),
    task_operations_preserve_status_invariant.2.2.2.2 ⟨[sampleTask], []⟩ "t1"
      TaskStatus.completed "T9" "a9" false true (by decide)⟩

/-- Counterexample refuting C1 as stated: starting from the consistent
collection `[sampleTask]` (`completed = false`, `status = 'not_started'`),
`taskService.updateTask` with the partial update `{ completed: true }`
produces a collection violating `completed == (status == completed)`, and the
store wrapper `useTaskStore.toggleTaskComplete` — which patches only the
`completed` flag of the in-memory collection — violates it as well. -/
theorem status_invariant_counterexample :
    tasksConsistent [sampleTask] = true ∧
    tasksConsistent (taskService.updateTask ⟨[sampleTask], []⟩ "t1"
      { completed := some true } "T2" "a1" true true).2.tasks = false ∧
    useTaskStore.toggleTaskComplete [sampleTask] "t1" =
      Except.ok [{ sampleTask with completed := true }] ∧
    tasksConsistent [{ sampleTask with completed := true }] = false := by
  refine ⟨rfl, rfl, ?_, rfl⟩
  rfl

/-- Helper for C9: for the title key, the comparator-induced order is the
lexicographic order on titles. -/
theorem title_taskLe_iff (g : String → Int) (a b : Task) :
    taskLe g SortKey.title a b = true ↔ a.title ≤ b.title := by
  simp only [taskLe, cmpTasks, decide_eq_true_eq]
  by_cases h1 : a.title < b.title
  · simp [h1, le_of_lt h1]
  · by_cases h2 : a.title = b.title
    · simp [h1, h2]
    · have h3 : ¬a.title ≤ b.title :=
        fun hle => h2 (le_antisymm hle (le_of_not_lt h1))

      simp [h1, h2, h3]

/-- Helper for C9: the comparator-induced order is transitive for each key. -/
theorem taskLe_trans (g : String → Int) (k : SortKey) (a b c : Task)
    (hab : taskLe g k a b = true) (hbc : taskLe g k b c = true) :
    taskLe g k a c = true := by
  cases k with
  | assignedDate =>
    simp only [taskLe, cmpTasks, decide_eq_true_eq] at hab hbc ⊢
    omega
  | dueDate =>
    simp only [taskLe, decide_eq_true_eq] at hab hbc ⊢
    rcases ha : a.dueDate with _ | x <;> rcases hb : b.dueDate with _ | y <;>
      rcases hc : c.dueDate with _ | z <;>
      simp only [cmpTasks, ha, hb, hc] at hab hbc ⊢ <;> omega
  | title =>
    rw [title_taskLe_iff] at hab hbc ⊢
    exact le_trans hab hbc

/-- Helper for C9: the comparator-induced order is total for each key. -/
theorem taskLe_total (g : String → Int) (k : SortKey) (a b : Task) :
    (taskLe g k a b || taskLe g k b a) = true := by
  cases k with
  | assignedDate =>
    simp only [taskLe, cmpTasks, Bool.or_eq_true, decide_eq_true_eq]
    omega
  | dueDate =>
    simp only [taskLe, Bool.or_eq_true, decide_eq_true_eq]
    rcases ha : a.dueDate with _ | x <;> rcases hb : b.dueDate with _ | y <;>
      simp only [cmpTasks, ha, hb] <;> omega
  | title =>
    rw [Bool.or_eq_true, title_taskLe_iff, title_taskLe_iff]
    exact le_total a.title b.title

/-- C9: with both a non-blank search query and a status filter given,
`filterTasks` returns exactly the tasks of the in-memory snapshot satisfying
BOTH predicates — the case-insensitive substring match of the query against
title or description, and exact status equality — never only one of them (the
result is a permutation of the doubly-filtered snapshot, so it is a pure
rearrangement with no invented or mutated entries); the result is sorted by
the comparator of the chosen key; and for the due-date key every task lacking
a due date is placed after all tasks that have one. -/
theorem filterTasks_applies_both_and_sorts
    (getTime : String → Int) (tasks : List Task) (searchQuery : String)
    (sortBy : SortKey) (s : TaskStatus)
    (hq : hasNonBlank searchQuery = true) :
    (∀ x : Task,
      x ∈ useTaskStore.filterTasks getTime tasks searchQuery sortBy (some s) ↔
      x ∈ tasks ∧ matchesQuery searchQuery x = true ∧ x.status = s) ∧
    (useTaskStore.filterTasks getTime tasks searchQuery sortBy
      (some s)).Perm
      ((tasks.filter (matchesQuery searchQuery)).filter
        (fun t : Task => t.status == s)) ∧
    (useTaskStore.filterTasks getTime tasks searchQuery sortBy
      (some s)).Pairwise (fun a b => taskLe getTime sortBy a b = true) ∧
    (sortBy = SortKey.dueDate →
      (useTaskStore.filterTasks getTime tasks searchQuery sortBy
        (some s)).Pairwise
        (fun a b => a.dueDate = none → b.dueDate = none)) := by
  have hunf : useTaskStore.filterTasks getTime tasks searchQuery sortBy
      (some s) =
      ((tasks.filter (matchesQuery searchQuery)).filter
        (fun t : Task => t.status == s)).mergeSort (taskLe getTime sortBy) := by
    simp [useTaskStore.filterTasks, hq]
  refine ⟨?_, ?_, ?_, ?_⟩
  · intro x
    rw [hunf, List.mem_mergeSort, List.mem_filter, List.mem_filter]
    constructor
    · rintro ⟨⟨hx, hm⟩, hs⟩
      exact ⟨hx, hm, beq_iff_eq.mp hs⟩
    · rintro ⟨hx, hm, hs⟩
      exact ⟨⟨hx, hm⟩, by simp [hs]⟩
  · rw [hunf]
    exact List.mergeSort_perm _ _
  · rw [hunf]
    exact List.sorted_mergeSort (taskLe_trans getTime sortBy)
      (taskLe_total getTime sortBy) _
  · intro hk
    subst hk
    have hp := List.sorted_mergeSort
      (taskLe_trans getTime SortKey.dueDate)
      (taskLe_total getTime SortKey.dueDate)
      ((tasks.filter (matchesQuery searchQuery)).filter
        (fun t : Task => t.status == s))
    rw [hunf]
    refine hp.imp ?_
    intro a b hab ha
    rcases hb : b.dueDate with _ | y
    · rfl
    · exfalso
      simp only [taskLe, decide_eq_true_eq, cmpTasks, ha, hb] at hab
      omega

/-- Witness for C9 at concrete inputs: the query `"rep"` (non-blank) and the
`'not_started'` status filter over the one-task snapshot, instantiating the
membership characterisation at `sampleTask`. -/
theorem filterTasks_applies_both_and_sorts_witness :
    hasNonBlank "rep" = true ∧
    (sampleTask ∈ useTaskStore.filterTasks (fun _ => 0) [sampleTask] "rep"
        SortKey.dueDate (some TaskStatus.not_started) ↔
      sampleTask ∈ [sampleTask] ∧ matchesQuery "rep" sampleTask = true ∧
        sampleTask.status = TaskStatus.not_started) :=
  ⟨by decide,
    (filterTasks_applies_both_and_sorts (fun _ => 0) [sampleTask] "rep"
      SortKey.dueDate TaskStatus.not_started (by decide)).1 sampleTask⟩

end TaskApp
